import Mathlib

/-!
Shallow embedding of the magic-hour-bot repository core logic.

The repository contains one Slack bot variant and three near-identical
Discord bot variants.  The pieces embedded here are the ones the claims of the
spec are about:

* the engagement selectors — the Slack `findEngagingMessage(messages)`
  loop (score = reaction total + text length / 10, running maximum
  starting at 0, no bot filter) and the Discord
  `findMostEngagingMessage(channel)` loop (bot filter, score = reaction
  total only, running maximum starting at -1, "most recent non-bot"
  fallback branch);
* the mention handlers (Slack `app_mention`, Discord `messageCreate`);
* the scheduled auto-post cycles (Slack per-team/per-channel cron loop
  with a per-channel try/catch, Discord single-channel cron callback
  with its generic-prompt fallback);
* the channel enrollment maps (`setchannel` / `setmemechannel`);
* the bounded job-status polling loop of the third Discord variant.

JavaScript numbers are doubles; the scores that occur here are exact
sums of naturals and tenths, for which double comparison agrees with
exact rational comparison.  Scores appear in the source only in `>`
comparisons against the running maximum, so the Slack score
`reactions + text.length / 10` is embedded scaled by 10 as the integer
`10 * reactions + text.length` (the starting maximum 0 scales to 0);
the lemma `slackScoreTenths_eq_spec` below ties the scaled score to the
exact rational value, so the order is the order of the source.  The Discord
score is the integer reaction total with starting maximum -1, embedded
as is.
-/

/-- A chat message as the selectors see it: author-is-bot flag, text and
the list of per-reaction counts.  Slack messages may lack `reactions`
or `text`; a missing field is modelled as `[]` / `""`, which is what the
`|| 0` defaults in the source compute with. -/
structure Message where
  isFromBot : Bool
  text : String
  reactions : List Nat
deriving DecidableEq, Repr

/-- Total reaction count of a message: the source sums `reaction.count`
over all reactions (`reduce((s, r) => s + (r.count || 0), 0)` in the
Slack variant, a `forEach` accumulation in the Discord variants). -/
def reactionTotal (m : Message) : Nat :=
  m.reactions.foldl (fun s c => s + c) 0

/-- The Slack variant score `reactionScore + (msg.text?.length || 0) / 10`,
scaled by 10 to stay in `Int` (see the header comment; only the order of
scores matters to the source, and scaling by 10 preserves it). -/
def slackScoreTenths (m : Message) : Int :=
  10 * (reactionTotal m : Int) + (m.text.length : Int)

/-- The shared shape of both selector loops: scan the list, keep the
first message whose score is strictly greater than the running maximum.
`p` is the candidate filter (`!message.author.bot` in the Discord
variants, trivially true in the Slack variant), `f` the score, and the
accumulator starts at `(null, initial maximum)`. -/
def selectLoopFrom {β : Type} [LinearOrder β]
    (p : Message → Bool) (f : Message → β) :
    Option Message × β → List Message → Option Message × β
  | acc, [] => acc
  | acc, msg :: rest =>
    if p msg then
      if f msg > acc.2 then selectLoopFrom p f (some msg, f msg) rest
      else selectLoopFrom p f acc rest
    else selectLoopFrom p f acc rest

/-- The Slack selector loop: `top = null; maxScore = 0;` then for each
message `if (score > maxScore) { maxScore = score; top = msg; }` with no
bot filter. -/
def slackLoop (msgs : List Message) : Option Message × Int :=
  selectLoopFrom (fun _ => true) slackScoreTenths (none, 0) msgs

/-- Slack `findEngagingMessage(messages)`: returns `top` (null when no
message scored above 0). -/
def findEngagingMessage (msgs : List Message) : Option Message :=
  (slackLoop msgs).1

/-- The Discord selector loop: `mostEngaging = null; maxReactions = -1;`
then for each message skip bots and
`if (totalReactions > maxReactions) { maxReactions = totalReactions; mostEngaging = message; }`. -/
def discordLoop (msgs : List Message) : Option Message × Int :=
  selectLoopFrom (fun m => !m.isFromBot) (fun m => (reactionTotal m : Int)) (none, -1) msgs

/-- Discord `findMostEngagingMessage(channel)` after the fetch: the loop
above followed by the fallback
`if (!mostEngaging && messages.size > 0) return messages.find(m => !m.author.bot) || null;`.
This function is textually repeated in `src/index.js`, `part_001` and
`part_002` (and in the Discord copy inside `part_000`); `part_001` omits
the `messages.size > 0` guard, which does not change the result on an
empty collection. -/
def findMostEngagingMessage (msgs : List Message) : Option Message :=
  if (discordLoop msgs).1 = none ∧ 0 < msgs.length then
    msgs.find? (fun m => !m.isFromBot)
  else
    (discordLoop msgs).1

/-- A second definition written from the words of the spec, for comparison
with the code: "EngagementScore: derived value,
`reactionTotal + textLength / 10`". -/
def specEngagementScore (m : Message) : ℚ :=
  (reactionTotal m : ℚ) + (m.text.length : ℚ) / 10

/-- Observable actions of the handlers and scheduled cycles: each
constructor records one external call the source performs (message
fetch, generation-service call, channel post with an attachment, Slack
`say`/`chat.postMessage`/`chat.delete`/`chat.update`, Discord
`message.reply`, console logging). -/
inductive Effect where
  | fetch (channel : String)
  | generate (prompt : String)
  | sendFiles (channel : String) (content : String) (url : String)
  | postMessage (channel : String) (text : String)
  | deleteMessage (channel : String)
  | updateMessage (channel : String) (text : String)
  | say (text : String)
  | reply (text : String)
  | replyFiles (content : String) (url : String)
  | log (text : String)
deriving DecidableEq, Repr

/-- JavaScript `.trim()`: drop leading and trailing whitespace.  (The
core `String.trim` is implemented with byte-position loops that the
kernel cannot reduce, so the character-list version is used
throughout.) -/
def charsTrim (l : List Char) : List Char :=
  ((l.dropWhile Char.isWhitespace).reverse.dropWhile Char.isWhitespace).reverse

/-- JavaScript `.trim()` on a `String`. -/
def jsTrim (s : String) : String :=
  String.mk (charsTrim s.data)

/-- JavaScript `.startsWith(pre)`. -/
def strStarts (s pre : String) : Bool :=
  pre.data.isPrefixOf s.data

/-- JavaScript `.toLowerCase()`. -/
def strToLower (s : String) : String :=
  String.mk (s.data.map Char.toLower)

/-- JavaScript `.substring(n)`: drop the first `n` characters. -/
def strDropChars (s : String) (n : Nat) : String :=
  String.mk (s.data.drop n)

/-- Length (in characters, the `>` inclusive) of the shortest prefix of
`l` matched by `.*?>` where `.` excludes newlines: the continuation of
the Slack mention regex `/<@.*?>/g` after a `<@`.  `none` when a newline
or the end of input comes before a `>`. -/
def skipMention : List Char → Option Nat
  | [] => none
  | c :: rest =>
    if c = '>' then some 1
    else if c = '\n' then none
    else (skipMention rest).map (fun n => n + 1)

/-- One pass of `text.replace(/<@.*?>/g, "")` from the Slack
`app_mention` handler: drop every `<@...>` span (lazy match, no newline
inside); where a `<@` has no closing `>`, the characters are kept and
scanning resumes after the `<`.  The `fuel` argument only makes the
recursion structural (so the kernel can evaluate it); every step
consumes at least one character, so calling with `fuel = l.length`
never exhausts it. -/
def stripMentionsFuel : Nat → List Char → List Char
  | 0, l => l
  | _ + 1, [] => []
  | fuel + 1, '<' :: '@' :: rest2 =>
    match skipMention rest2 with
    | some n => stripMentionsFuel fuel (rest2.drop n)
    | none => '<' :: stripMentionsFuel fuel ('@' :: rest2)
  | fuel + 1, c :: rest => c :: stripMentionsFuel fuel rest

/-- `text.replace(/<@.*?>/g, "")` on a `String`. -/
def stripMentions (s : String) : String :=
  String.mk (stripMentionsFuel s.data.length s.data)

/-- The extracted prompt of the Slack handler:
`const userPrompt = text.replace(/<@.*?>/g, "").trim();`. -/
def slackExtractPrompt (text : String) : String :=
  jsTrim (stripMentions text)

/-- Rejection sent by the Slack `app_mention` handler on an empty prompt. -/
def slackEmptyPromptReply : String :=
  "❌ Please type something after tagging me, e.g. `@Magic hour when code finally works`"

/-- The Slack `app_mention` handler (part_000): reject empty prompts,
otherwise post a placeholder, call the generation helper, and on success
delete the placeholder and post the meme, on failure update the
placeholder in place.  `gen` abstracts `generateMeme` (which returns
null on failure). -/
def slackMentionHandler (text user channel : String)
    (gen : String → Option String) : List Effect :=
  let userPrompt := slackExtractPrompt text
  if userPrompt = "" then
    [Effect.say slackEmptyPromptReply]
  else
    Effect.postMessage channel ("🎨 Generating your meme, <@" ++ user ++ ">...") ::
    Effect.generate userPrompt ::
    match gen userPrompt with
    | some url =>
      [Effect.deleteMessage channel,
       Effect.sendFiles channel ("😂 Here\x27s your meme, <@" ++ user ++ ">!") url]
    | none =>
      [Effect.updateMessage channel ("❌ Sorry, couldn\x27t generate meme. Try again later.")]

/-- The accumulator pass behind `split(/\s+/)`: collect maximal runs of
non-whitespace characters (`cur` holds the current token reversed). -/
def splitWsAux : List Char → List Char → List String
  | [], cur => if cur = [] then [] else [String.mk cur.reverse]
  | c :: rest, cur =>
    if c.isWhitespace then
      if cur = [] then splitWsAux rest []
      else String.mk cur.reverse :: splitWsAux rest []
    else splitWsAux rest (c :: cur)

/-- `s.split(/\s+/)` for a trimmed `s` as the handlers use it:
JavaScript returns `[""]` on the empty string and otherwise the
non-empty whitespace-separated tokens. -/
def jsSplitWs (s : String) : List String :=
  if s = "" then [""] else splitWsAux s.data []

/-- Join a token list with single spaces: `contentArray.join(" ")`. -/
def joinSpace (ts : List String) : String :=
  String.mk (List.intercalate [' '] (ts.map String.data))

/-- `const BOT_COMMAND_PREFIX = "create meme";`. -/
def botCommandText : String := "create meme"

/-- The mention stripping of the Discord `messageCreate` handler
(`src/index.js`): split the trimmed clean content on whitespace, shift
the first token when it starts with `@` (the resolved mention), rejoin
and trim. -/
def discordExtractContent (cleanContent : String) : String :=
  let contentArray := jsSplitWs (jsTrim cleanContent)
  let contentArray2 :=
    if 0 < contentArray.length ∧ strStarts (contentArray.headD ("")) "@" = true then
      contentArray.tail
    else contentArray
  jsTrim (joinSpace contentArray2)

/-- `const prompt = content.substring(BOT_COMMAND_PREFIX.length).trim();`. -/
def discordExtractPrompt (cleanContent : String) : String :=
  jsTrim (strDropChars (discordExtractContent cleanContent) botCommandText.length)

/-- Rejection sent by the Discord `messageCreate` handler when the
prompt after the command prefix is empty. -/
def discordEmptyPromptReply : String :=
  "Please provide a meme idea after the command, like: `@MagicHourAI create meme when the database finally compiles`"

/-- The Discord `messageCreate` handler (`src/index.js`) after the
mention check: parse the prompt, reject when it is empty, otherwise
confirm, call the generation helper, and reply with the result or a
failure notice.  Content that does not start with the command prefix is
only logged. -/
def discordMentionHandler (cleanContent : String)
    (gen : String → Option String) : List Effect :=
  let content := discordExtractContent cleanContent
  if strStarts (strToLower content) botCommandText = true then
    let prompt := discordExtractPrompt cleanContent
    if prompt = "" then
      [Effect.reply discordEmptyPromptReply]
    else
      Effect.reply ("🎨 Generating your meme... hang tight!") ::
      Effect.generate prompt ::
      match gen prompt with
      | some url =>
        [Effect.replyFiles ("😂 Here’s the content you requested based on: **" ++ prompt ++ "**") url]
      | none =>
        [Effect.reply ("❌ **Content generation failed.** This could be due to an invalid API Key/Quota, or the prompt was rejected by the AI.")]
  else
    [Effect.log ("Message content did not match prefix")]

/-- Channel enrollment, shared by the Slack `setchannel` handler
(part_000) and the Discord `setmemechannel` interaction handler
(part_001): read the list of the owner (`|| []` default), append the channel
only when it is not already present, and store the list back.  The map
is modelled as the total function `ownerId → channel list` with default
`[]`. -/
def enroll (channelMap : String → List String) (teamId channelId : String) :
    String → List String :=
  let existing := channelMap teamId
  let updated := if channelId ∈ existing then existing else existing ++ [channelId]
  fun t => if t = teamId then updated else channelMap t

/-- Outcome recorded for one destination of a scheduled cycle: the
per-channel `try { ... } catch (err) { console.error(...); }` either
completes the body or logs the thrown error and moves on. -/
inductive DestOutcome where
  | done
  | errorLogged (err : String)
deriving DecidableEq, Repr

/-- The inner `for (const channel of channels)` loop of the Slack cron
callback (part_000) and of the part_001 Discord cron callback: each
body of each channel runs inside its own try/catch, so a thrown error becomes
a logged outcome and the loop continues. -/
def runChannelLoop (body : String → String → Except String Unit)
    (owner : String) : List String → List ((String × String) × DestOutcome)
  | [] => []
  | ch :: rest =>
    (match body owner ch with
     | Except.ok _ => ((owner, ch), DestOutcome.done)
     | Except.error e => ((owner, ch), DestOutcome.errorLogged e)) ::
    runChannelLoop body owner rest

/-- The outer `for (const [team, channels] of channelMap.entries())`
loop of the scheduled cycles: every enrolled (owner, channel) pair is
visited in order. -/
def runAutoCycle (body : String → String → Except String Unit) :
    List (String × List String) → List ((String × String) × DestOutcome)
  | [] => []
  | (owner, chs) :: rest => runChannelLoop body owner chs ++ runAutoCycle body rest

/-- Log text the Slack cron emits before `continue` when the selector
found nothing. -/
def slackNoEngagingLog : String := "⚠️ [CRON] No engaging message found."

/-- One destination of the Slack cron callback (part_000), after the
fetch succeeded: run the selector; on `null` log and `continue`
(no generation, no post); otherwise generate from the templated prompt
and post the meme on success. -/
def slackCronChannel (channel : String) (msgs : List Message)
    (gen : String → Option String) : List Effect :=
  Effect.fetch channel ::
  match findEngagingMessage msgs with
  | none => [Effect.log slackNoEngagingLog]
  | some engaging =>
    let prompt := "Make a funny meme based on: \"" ++ engaging.text ++ "\""
    Effect.generate prompt ::
    match gen prompt with
    | some url =>
      [Effect.sendFiles channel ("🤣 Auto Meme Time! (Based on: \"" ++ engaging.text ++ "\")") url]
    | none => [Effect.log ("❌ [CRON] Meme generation failed")]

/-- The generic fallback prompt hard-coded in the Discord cron callbacks. -/
def genericFallbackPrompt : String :=
  "something funny for a discord server that is full of coders and gamers"

/-- The Discord cron callback (`src/index.js`): missing CHANNEL_ID is
only logged; otherwise fetch the channel history, run the selector, and
either generate/post from the selected message or — when the selector
returned `null` — generate a meme from the generic fallback prompt and
post it on success. -/
def discordAutoCycle (channelId : Option String) (msgs : List Message)
    (gen : String → Option String) : List Effect :=
  match channelId with
  | none => [Effect.log ("CHANNEL_ID is not defined in .env, skipping auto-content generation.")]
  | some ch =>
    Effect.fetch ch ::
    match findMostEngagingMessage msgs with
    | some engaging =>
      let contentPrompt :=
        "Create a humorous meme based on this recent server chat: \"" ++ engaging.text ++ "\"."
      Effect.generate contentPrompt ::
      match gen contentPrompt with
      | some url =>
        [Effect.sendFiles ch ("🤣 **Auto Content Time!** (Based on: *" ++ engaging.text ++ "*)") url]
      | none => [Effect.log ("❌ Failed to generate auto-content.")]
    | none =>
      Effect.log ("ℹ️ Could not find an engaging non-bot message in the last 50.") ::
      Effect.generate genericFallbackPrompt ::
      match gen genericFallbackPrompt with
      | some url =>
        [Effect.sendFiles ch ("😂 Auto Content Time! Here\x27s a generic joke for the server.") url]
      | none => []

/-- A polled job-status response of the third Discord variant
(part_002): `{ status, downloads }`, with `downloads` the list of output
URLs. -/
structure PollResponse where
  status : String
  downloads : List String
deriving DecidableEq, Repr

/-- `const maxAttempts = 20;` in the part_002 `generateMeme`. -/
def maxAttempts : Nat := 20

/-- The fixed `setTimeout(r, 3000)` delay of the polling loop, in
milliseconds. -/
def pollIntervalMs : Nat := 3000

/-- The `while (status !== "complete" && status !== "error" && attempts < maxAttempts)`
polling loop of the part_002 `generateMeme`.  `get i` is the response of
the i-th `mh.v1.aiMemeGenerator.get` call (attempts are counted from 1
as in the source).  Returns the meme URL (when a poll reports
`complete` with a download), the total number of polls performed, and
the total milliseconds slept (one fixed delay after every poll that did
not return directly). -/
def pollLoop (get : Nat → PollResponse) (status : String) (attempts : Nat) :
    Option String × Nat × Nat :=
  if status ≠ "complete" ∧ status ≠ "error" ∧ attempts < maxAttempts then
    let current := get (attempts + 1)
    if current.status = "complete" ∧ current.downloads ≠ [] then
      (some (current.downloads.headD ("")), attempts + 1, 0)
    else
      let r := pollLoop get current.status (attempts + 1)
      (r.1, r.2.1, pollIntervalMs + r.2.2)
  else
    (none, attempts, 0)
termination_by maxAttempts - attempts
decreasing_by omega

/-- The part_002 `generateMeme` after a successful `create` call returning
`createStatus`: run the polling loop from zero attempts; every path
that does not reach `complete` with a download falls through to
`return null`. -/
def generateMemePolling (createStatus : String) (get : Nat → PollResponse) :
    Option String × Nat × Nat :=
  pollLoop get createStatus 0

/-- A returned message comes from the accumulator or from the list, and
in the latter case it passed the candidate filter. -/
theorem selectLoopFrom_fst_mem {β : Type} [LinearOrder β] (p : Message → Bool) (f : Message → β)
    (msgs : List Message) :
    ∀ acc m, (selectLoopFrom p f acc msgs).1 = some m →
      acc.1 = some m ∨ (m ∈ msgs ∧ p m = true) := by
  induction msgs with
  | nil => exact fun acc m h => Or.inl h
  | cons msg rest ih =>
    intro acc m h
    simp only [selectLoopFrom] at h
    by_cases hp : p msg = true
    · rw [if_pos hp] at h
      by_cases hf : f msg > acc.2
      · rw [if_pos hf] at h
        rcases ih _ m h with h1 | h1
        · have hm : msg = m := Option.some.inj h1
          exact Or.inr ⟨hm ▸ List.mem_cons_self msg rest, hm ▸ hp⟩
        · exact Or.inr ⟨List.mem_cons_of_mem msg h1.1, h1.2⟩
      · rw [if_neg hf] at h
        rcases ih _ m h with h1 | h1
        · exact Or.inl h1
        · exact Or.inr ⟨List.mem_cons_of_mem msg h1.1, h1.2⟩
    · rw [if_neg hp] at h
      rcases ih _ m h with h1 | h1
      · exact Or.inl h1
      · exact Or.inr ⟨List.mem_cons_of_mem msg h1.1, h1.2⟩

/-- The running maximum always equals the score of the currently kept
message. -/
theorem selectLoopFrom_snd_eq {β : Type} [LinearOrder β] (p : Message → Bool) (f : Message → β)
    (msgs : List Message) :
    ∀ acc, (∀ x, acc.1 = some x → acc.2 = f x) →
      ∀ m, (selectLoopFrom p f acc msgs).1 = some m →
        (selectLoopFrom p f acc msgs).2 = f m := by
  induction msgs with
  | nil => exact fun acc hacc m h => hacc m h
  | cons msg rest ih =>
    intro acc hacc m h
    simp only [selectLoopFrom] at h ⊢
    by_cases hp : p msg = true
    · rw [if_pos hp] at h ⊢
      by_cases hf : f msg > acc.2
      · rw [if_pos hf] at h ⊢
        exact ih _ (fun x hx => by rw [← Option.some.inj hx]) m h
      · rw [if_neg hf] at h ⊢
        exact ih _ hacc m h
    · rw [if_neg hp] at h ⊢
      exact ih _ hacc m h

/-- The final running maximum bounds the score of every candidate in
the list and never decreases below the starting maximum. -/
theorem selectLoopFrom_snd_le {β : Type} [LinearOrder β] (p : Message → Bool) (f : Message → β)
    (msgs : List Message) :
    ∀ acc, acc.2 ≤ (selectLoopFrom p f acc msgs).2 ∧
      ∀ x ∈ msgs, p x = true → f x ≤ (selectLoopFrom p f acc msgs).2 := by
  induction msgs with
  | nil => exact fun acc => ⟨le_refl _, by simp⟩
  | cons msg rest ih =>
    intro acc
    simp only [selectLoopFrom]
    by_cases hp : p msg = true
    · rw [if_pos hp]
      by_cases hf : f msg > acc.2
      · rw [if_pos hf]
        refine ⟨le_trans (le_of_lt hf) (ih (some msg, f msg)).1, ?_⟩
        intro x hx hpx
        rcases List.mem_cons.mp hx with h1 | h1
        · exact h1 ▸ (ih (some msg, f msg)).1
        · exact (ih (some msg, f msg)).2 x h1 hpx
      · rw [if_neg hf]
        refine ⟨(ih acc).1, ?_⟩
        intro x hx hpx
        rcases List.mem_cons.mp hx with h1 | h1
        · exact le_trans (h1 ▸ le_of_not_lt hf) (ih acc).1
        · exact (ih acc).2 x h1 hpx
    · rw [if_neg hp]
      refine ⟨(ih acc).1, ?_⟩
      intro x hx hpx
      rcases List.mem_cons.mp hx with h1 | h1
      · exact absurd (h1 ▸ hpx) (by simpa using hp)
      · exact (ih acc).2 x h1 hpx

/-- When no candidate beats the running maximum the loop changes
nothing. -/
theorem selectLoopFrom_keep {β : Type} [LinearOrder β] (p : Message → Bool) (f : Message → β)
    (msgs : List Message) :
    ∀ acc, (∀ x ∈ msgs, p x = true → f x ≤ acc.2) →
      selectLoopFrom p f acc msgs = acc := by
  induction msgs with
  | nil => exact fun acc _ => rfl
  | cons msg rest ih =>
    intro acc hle
    simp only [selectLoopFrom]
    by_cases hp : p msg = true
    · rw [if_pos hp, if_neg (not_lt.mpr (hle msg (List.mem_cons_self msg rest) hp))]
      exact ih acc fun x hx => hle x (List.mem_cons_of_mem msg hx)
    · rw [if_neg hp]
      exact ih acc fun x hx => hle x (List.mem_cons_of_mem msg hx)

/-- A kept message is never lost. -/
theorem selectLoopFrom_isSome_stable {β : Type} [LinearOrder β] (p : Message → Bool)
    (f : Message → β) (msgs : List Message) :
    ∀ acc, acc.1.isSome = true → (selectLoopFrom p f acc msgs).1.isSome = true := by
  induction msgs with
  | nil => exact fun acc h => h
  | cons msg rest ih =>
    intro acc h
    simp only [selectLoopFrom]
    by_cases hp : p msg = true
    · rw [if_pos hp]
      by_cases hf : f msg > acc.2
      · rw [if_pos hf]; exact ih _ rfl
      · rw [if_neg hf]; exact ih _ h
    · rw [if_neg hp]; exact ih _ h

/-- Any candidate scoring above the running maximum forces the loop to
return a message. -/
theorem selectLoopFrom_isSome {β : Type} [LinearOrder β] (p : Message → Bool) (f : Message → β)
    (msgs : List Message) :
    ∀ acc, (∃ x ∈ msgs, p x = true ∧ acc.2 < f x) →
      (selectLoopFrom p f acc msgs).1.isSome = true := by
  induction msgs with
  | nil => rintro acc ⟨x, hx, -⟩; exact absurd hx (List.not_mem_nil x)
  | cons msg rest ih =>
    rintro acc ⟨x, hx, hpx, hfx⟩
    simp only [selectLoopFrom]
    by_cases hp : p msg = true
    · rw [if_pos hp]
      by_cases hf : f msg > acc.2
      · rw [if_pos hf]
        exact selectLoopFrom_isSome_stable p f rest _ rfl
      · rw [if_neg hf]
        rcases List.mem_cons.mp hx with h1 | h1
        · exact absurd (h1 ▸ hfx) hf
        · exact ih acc ⟨x, h1, hpx, hfx⟩
    · rw [if_neg hp]
      rcases List.mem_cons.mp hx with h1 | h1
      · exact absurd (h1 ▸ hpx) (by simpa [← h1] using hp)
      · exact ih acc ⟨x, h1, hpx, hfx⟩

/-- When every candidate has one and the same score above the starting
maximum, the loop keeps the first candidate. -/
theorem selectLoopFrom_const {β : Type} [LinearOrder β] (p : Message → Bool) (f : Message → β)
    (msgs : List Message) (c : β) :
    ∀ acc, acc.1 = none → acc.2 < c → (∀ x ∈ msgs, p x = true → f x = c) →
      (selectLoopFrom p f acc msgs).1 = msgs.find? p := by
  induction msgs with
  | nil => intro acc hnone _ _; exact hnone
  | cons msg rest ih =>
    intro acc hnone hlt hall
    simp only [selectLoopFrom]
    by_cases hp : p msg = true
    · have hfc : f msg = c := hall msg (List.mem_cons_self msg rest) hp
      rw [if_pos hp, if_pos (by rw [hfc]; exact hlt)]
      rw [List.find?_cons_of_pos _ hp]
      have hkeep : selectLoopFrom p f (some msg, f msg) rest = (some msg, f msg) := by
        refine selectLoopFrom_keep p f rest _ ?_
        intro x hx hpx
        rw [hall x (List.mem_cons_of_mem msg hx) hpx, hfc]
      rw [hkeep]
    · rw [if_neg hp, List.find?_cons_of_neg _ (by simpa using hp)]
      exact ih acc hnone hlt fun x hx => hall x (List.mem_cons_of_mem msg hx)

/-- First-argmax characterization: a returned message splits the list
so that every earlier candidate scores strictly below it (ties keep the
earlier message), and it scored strictly above the starting maximum. -/
theorem selectLoopFrom_split {β : Type} [LinearOrder β] (p : Message → Bool) (f : Message → β)
    (msgs : List Message) :
    ∀ acc m, (selectLoopFrom p f acc msgs).1 = some m →
      acc.1 = some m ∨
      ∃ l1 l2, msgs = l1 ++ m :: l2 ∧ p m = true ∧ acc.2 < f m ∧
        ∀ x ∈ l1, p x = true → f x < f m := by
  induction msgs with
  | nil => exact fun acc m h => Or.inl h
  | cons msg rest ih =>
    intro acc m h
    simp only [selectLoopFrom] at h
    by_cases hp : p msg = true
    · rw [if_pos hp] at h
      by_cases hf : f msg > acc.2
      · rw [if_pos hf] at h
        rcases ih _ m h with h1 | ⟨l1, l2, hsplit, hpm, hacc, hlt⟩
        · have hm : msg = m := Option.some.inj h1
          exact Or.inr ⟨[], rest, by rw [hm]; rfl, hm ▸ hp, hm ▸ hf, by simp⟩
        · refine Or.inr ⟨msg :: l1, l2, by rw [hsplit]; rfl, hpm, lt_trans hf hacc, ?_⟩
          intro x hx hpx
          rcases List.mem_cons.mp hx with h2 | h2
          · exact h2 ▸ hacc
          · exact hlt x h2 hpx
      · rw [if_neg hf] at h
        rcases ih _ m h with h1 | ⟨l1, l2, hsplit, hpm, hacc, hlt⟩
        · exact Or.inl h1
        · refine Or.inr ⟨msg :: l1, l2, by rw [hsplit]; rfl, hpm, hacc, ?_⟩
          intro x hx hpx
          rcases List.mem_cons.mp hx with h2 | h2
          · exact h2 ▸ lt_of_le_of_lt (le_of_not_lt hf) hacc
          · exact hlt x h2 hpx
    · rw [if_neg hp] at h
      rcases ih _ m h with h1 | ⟨l1, l2, hsplit, hpm, hacc, hlt⟩
      · exact Or.inl h1
      · refine Or.inr ⟨msg :: l1, l2, by rw [hsplit]; rfl, hpm, hacc, ?_⟩
        intro x hx hpx
        rcases List.mem_cons.mp hx with h2 | h2
        · exact absurd (h2 ▸ hpx) (by simpa using hp)
        · exact hlt x h2 hpx

/-- The scaled integer score is ten times the exact rational
engagement score: the scaling of the embedding is order-faithful. -/
theorem slackScoreTenths_eq_spec (m : Message) :
    (slackScoreTenths m : ℚ) = 10 * specEngagementScore m := by
  simp only [slackScoreTenths, specEngagementScore]
  push_cast
  ring

/-- Order transfer between the scaled score and the spec score. -/
theorem slackScoreTenths_le_iff (x y : Message) :
    slackScoreTenths x ≤ slackScoreTenths y ↔
      specEngagementScore x ≤ specEngagementScore y := by
  rw [← Int.cast_le (R := ℚ), slackScoreTenths_eq_spec, slackScoreTenths_eq_spec]
  constructor <;> intro h <;> linarith

/-- Strict-order transfer between the scaled score and the spec score. -/
theorem slackScoreTenths_lt_iff (x y : Message) :
    slackScoreTenths x < slackScoreTenths y ↔
      specEngagementScore x < specEngagementScore y := by
  rw [← Int.cast_lt (R := ℚ), slackScoreTenths_eq_spec, slackScoreTenths_eq_spec]
  constructor <;> intro h <;> linarith

/-- Positivity transfer for the scaled score. -/
theorem slackScoreTenths_pos_iff (x : Message) :
    0 < slackScoreTenths x ↔ 0 < specEngagementScore x := by
  have h := slackScoreTenths_lt_iff ⟨false, "", []⟩ x
  simpa [slackScoreTenths, specEngagementScore, reactionTotal] using h

/-- The integer Discord score of any message is strictly above the
initial running maximum -1. -/
theorem reactionTotal_int_gt_neg_one (m : Message) :
    (-1 : Int) < (reactionTotal m : Int) := by
  omega

/-- Any non-bot message forces the Discord loop to return a message. -/
theorem discordLoop_isSome (msgs : List Message)
    (h : ∃ x ∈ msgs, x.isFromBot = false) :
    (discordLoop msgs).1.isSome = true := by
  rcases h with ⟨x, hx, hbot⟩
  exact selectLoopFrom_isSome _ _ msgs _
    ⟨x, hx, by simp [hbot], reactionTotal_int_gt_neg_one x⟩

/-- When the Discord loop returns nothing, every message was
bot-authored. -/
theorem discordLoop_none_allBot (msgs : List Message)
    (h : (discordLoop msgs).1 = none) :
    ∀ x ∈ msgs, x.isFromBot = true := by
  intro x hx
  by_contra hbot
  have := discordLoop_isSome msgs ⟨x, hx, by simpa using hbot⟩
  rw [h] at this
  exact absurd this (by simp)

/-- `findMostEngagingMessage` returns a message exactly when the
scoring loop does: the fallback branch never contributes one. -/
theorem findMostEngaging_some_iff (msgs : List Message) (m : Message) :
    findMostEngagingMessage msgs = some m ↔ (discordLoop msgs).1 = some m := by
  constructor
  · intro h
    by_cases hc : (discordLoop msgs).1 = none ∧ 0 < msgs.length
    · rw [findMostEngagingMessage, if_pos hc] at h
      have hall := discordLoop_none_allBot msgs hc.1
      have : msgs.find? (fun x => !x.isFromBot) = none :=
        List.find?_eq_none.mpr fun x hx => by simp [hall x hx]
      rw [this] at h
      exact absurd h (by simp)
    · rwa [findMostEngagingMessage, if_neg hc] at h
  · intro h
    have hc : ¬((discordLoop msgs).1 = none ∧ 0 < msgs.length) := by
      rw [h]; rintro ⟨h1, -⟩; exact absurd h1 (by simp)
    rw [findMostEngagingMessage, if_neg hc, h]

/-- Claim C1, counterexample: the Discord selector does not maximize
the spec engagement score `reactions + length/10`.  On a non-bot
20-character message with no reactions (spec score 2) against a non-bot
empty message with one reaction (spec score 1), the code returns the
latter, a message that does not attain the maximum spec score among the
candidates. -/
theorem c1_counterexample :
    (Message.mk false ("aaaaaaaaaaaaaaaaaaaa") []).isFromBot = false ∧
    findMostEngagingMessage
        [⟨false, "aaaaaaaaaaaaaaaaaaaa", []⟩, ⟨false, "", [1]⟩] = some ⟨false, "", [1]⟩ ∧
    specEngagementScore ⟨false, "", [1]⟩ <
      specEngagementScore ⟨false, "aaaaaaaaaaaaaaaaaaaa", []⟩ := by
  refine ⟨rfl, by decide, ?_⟩
  have h1 : reactionTotal ⟨false, "", [1]⟩ = 1 := rfl
  have h2 : reactionTotal ⟨false, "aaaaaaaaaaaaaaaaaaaa", []⟩ = 0 := rfl
  have h3 : (Message.mk false ("") [1]).text.length = 0 := rfl
  have h4 : (Message.mk false ("aaaaaaaaaaaaaaaaaaaa") []).text.length = 20 := rfl
  rw [specEngagementScore, specEngagementScore, h1, h2, h3, h4]
  norm_num

/-- Claim C1, amended: the Slack selector `findEngagingMessage` scores
every message (it applies no bot filter) by `reactions + length/10` and
any message it returns attains the maximum of that score over all
messages (and scored positively); the Discord selector
`findMostEngagingMessage` scores non-bot messages by reaction count
only, and any message it returns attains the maximum reaction total
among the non-bot messages. -/
theorem c1_amended (msgs : List Message) (m : Message) :
    (findEngagingMessage msgs = some m →
      m ∈ msgs ∧ 0 < specEngagementScore m ∧
      ∀ x ∈ msgs, specEngagementScore x ≤ specEngagementScore m) ∧
    (findMostEngagingMessage msgs = some m →
      m ∈ msgs ∧ m.isFromBot = false ∧
      ∀ x ∈ msgs, x.isFromBot = false → reactionTotal x ≤ reactionTotal m) := by
  constructor
  · intro h
    have h' : (selectLoopFrom (fun _ => true) slackScoreTenths (none, 0) msgs).1 = some m := h
    rcases selectLoopFrom_fst_mem _ slackScoreTenths msgs (none, 0) m h' with h1 | h1
    · exact absurd h1 (by simp)
    refine ⟨h1.1, ?_, ?_⟩
    · rcases selectLoopFrom_split _ slackScoreTenths msgs (none, 0) m h' with
        h2 | ⟨l1, l2, -, -, hpos, -⟩
      · exact absurd h2 (by simp)
      · exact (slackScoreTenths_pos_iff m).mp hpos
    · intro x hx
      have hle := (selectLoopFrom_snd_le (fun _ => true) slackScoreTenths msgs (none, 0)).2 x hx rfl
      have heq := selectLoopFrom_snd_eq (fun _ => true) slackScoreTenths msgs (none, 0)
        (fun x hx => absurd hx (by simp)) m h'
      rw [heq] at hle
      exact (slackScoreTenths_le_iff x m).mp hle
  · intro h
    have h' := (findMostEngaging_some_iff msgs m).mp h
    have h'' : (selectLoopFrom (fun x => !x.isFromBot)
        (fun x => (reactionTotal x : Int)) (none, -1) msgs).1 = some m := h'
    rcases selectLoopFrom_fst_mem _ _ msgs (none, -1) m h'' with h1 | h1
    · exact absurd h1 (by simp)
    refine ⟨h1.1, by simpa using h1.2, ?_⟩
    intro x hx hbx
    have hle := (selectLoopFrom_snd_le (fun x => !x.isFromBot)
      (fun x => (reactionTotal x : Int)) msgs (none, -1)).2 x hx (by simp [hbx])
    have heq := selectLoopFrom_snd_eq (fun x => !x.isFromBot)
      (fun x => (reactionTotal x : Int)) msgs (none, -1)
      (fun x hx => absurd hx (by simp)) m h''
    rw [heq] at hle
    have hle' : (reactionTotal x : Int) ≤ (reactionTotal m : Int) := by simpa using hle
    exact_mod_cast hle'

/-- Claim C1, witness: the amended theorem applied to a concrete
one-message list. -/
theorem c1_witness :
    ((⟨false, "hi", [2]⟩ : Message) ∈ [(⟨false, "hi", [2]⟩ : Message)] ∧
      0 < specEngagementScore ⟨false, "hi", [2]⟩ ∧
      ∀ x ∈ [(⟨false, "hi", [2]⟩ : Message)],
        specEngagementScore x ≤ specEngagementScore ⟨false, "hi", [2]⟩) ∧
    ((⟨false, "hi", [2]⟩ : Message) ∈ [(⟨false, "hi", [2]⟩ : Message)] ∧
      (⟨false, "hi", [2]⟩ : Message).isFromBot = false ∧
      ∀ x ∈ [(⟨false, "hi", [2]⟩ : Message)],
        x.isFromBot = false → reactionTotal x ≤ reactionTotal ⟨false, "hi", [2]⟩) :=
  ⟨(c1_amended [⟨false, "hi", [2]⟩] ⟨false, "hi", [2]⟩).1 (by decide),
   (c1_amended [⟨false, "hi", [2]⟩] ⟨false, "hi", [2]⟩).2 (by decide)⟩

/-- Claim C2, counterexample: the Slack selector `findEngagingMessage`
applies no bot filter, so it can return a bot-authored message (here a
bot message with five reactions). -/
theorem c2_counterexample :
    findEngagingMessage [⟨true, "hello", [5]⟩] = some ⟨true, "hello", [5]⟩ ∧
    (Message.mk true ("hello") [5]).isFromBot = true := by
  exact ⟨by decide, rfl⟩

/-- Claim C2, amended: the Discord selector `findMostEngagingMessage`
never returns a bot-authored message and returns NONE when every
message is bot-authored; the Slack selector `findEngagingMessage`
applies no bot filter and can return a bot-authored message. -/
theorem c2_amended (msgs : List Message) (m : Message) :
    (findMostEngagingMessage msgs = some m → m.isFromBot = false) ∧
    ((∀ x ∈ msgs, x.isFromBot = true) → findMostEngagingMessage msgs = none) := by
  constructor
  · intro h
    have h' := (findMostEngaging_some_iff msgs m).mp h
    rcases selectLoopFrom_fst_mem _ _ msgs (none, -1) m h' with h1 | h1
    · exact absurd h1 (by simp)
    · simpa using h1.2
  · intro hall
    have hloop : (discordLoop msgs).1 = none := by
      have hkeep := selectLoopFrom_keep (fun x => !x.isFromBot)
        (fun x => (reactionTotal x : Int)) msgs (none, -1)
        (fun x hx hpx => absurd hpx (by simp [hall x hx]))
      rw [discordLoop, hkeep]
    have hfind : msgs.find? (fun x => !x.isFromBot) = none :=
      List.find?_eq_none.mpr fun x hx => by simp [hall x hx]
    rw [findMostEngagingMessage]
    by_cases hc : (discordLoop msgs).1 = none ∧ 0 < msgs.length
    · rw [if_pos hc]; exact hfind
    · rw [if_neg hc]; exact hloop

/-- Claim C2, witness: the amended theorem applied to concrete lists
(a singleton non-bot list for the first part, a singleton bot list for
the second). -/
theorem c2_witness :
    (Message.mk false ("") []).isFromBot = false ∧
    findMostEngagingMessage [⟨true, "", []⟩] = none :=
  ⟨(c2_amended [⟨false, "", []⟩] ⟨false, "", []⟩).1 (by decide),
   (c2_amended [⟨true, "", []⟩] ⟨true, "", []⟩).2 (by decide)⟩

/-- Claim C3, counterexample: on a one-message sequence whose only
message is non-bot with zero reactions and empty text, the Slack
selector `findEngagingMessage` returns NONE, not the first non-bot
message — it implements policy (a), not the claimed fallback (b). -/
theorem c3_counterexample :
    (Message.mk false ("") []).isFromBot = false ∧
    reactionTotal ⟨false, "", []⟩ = 0 ∧
    (Message.mk false ("") []).text = "" ∧
    findEngagingMessage [⟨false, "", []⟩] = none := by
  exact ⟨rfl, rfl, rfl, by decide⟩

/-- Claim C3, amended: on sequences with at least one non-bot message
where every reaction total is 0 and every text is empty, the Discord
selector `findMostEngagingMessage` returns the first non-bot message in
scan order (fallback policy (b)), while the Slack selector
`findEngagingMessage` returns NONE. -/
theorem c3_amended (msgs : List Message)
    (h1 : ∃ x ∈ msgs, x.isFromBot = false)
    (h2 : ∀ x ∈ msgs, reactionTotal x = 0)
    (h3 : ∀ x ∈ msgs, x.text = "") :
    findMostEngagingMessage msgs = msgs.find? (fun x => !x.isFromBot) ∧
    findEngagingMessage msgs = none := by
  constructor
  · have hloop : (discordLoop msgs).1 = msgs.find? (fun x => !x.isFromBot) := by
      rw [discordLoop]
      exact selectLoopFrom_const (fun x => !x.isFromBot)
        (fun x => (reactionTotal x : Int)) msgs 0 (none, -1) rfl (by norm_num)
        (fun x hx _ => by show (reactionTotal x : Int) = 0; rw [h2 x hx]; rfl)
    have hsome : (msgs.find? (fun x => !x.isFromBot)).isSome := by
      rw [List.find?_isSome]
      rcases h1 with ⟨x, hx, hbx⟩
      exact ⟨x, hx, by simp [hbx]⟩
    have hc : ¬((discordLoop msgs).1 = none ∧ 0 < msgs.length) := by
      rw [hloop]
      rintro ⟨hn, -⟩
      rw [hn] at hsome
      exact absurd hsome (by simp)
    rw [findMostEngagingMessage, if_neg hc, hloop]
  · have hkeep := selectLoopFrom_keep (fun _ => true) slackScoreTenths msgs (none, 0)
      (fun x hx _ => by
        simp only [slackScoreTenths, h2 x hx, h3 x hx]
        rfl)
    rw [findEngagingMessage, slackLoop, hkeep]

/-- Claim C3, witness: the amended theorem applied to the concrete
sequence of one non-bot, reaction-free, empty-text message. -/
theorem c3_witness :
    findMostEngagingMessage [⟨false, "", []⟩] =
      List.find? (fun x => !x.isFromBot) [⟨false, "", []⟩] ∧
    findEngagingMessage [⟨false, "", []⟩] = none :=
  c3_amended [⟨false, "", []⟩] (by decide) (by decide) (by decide)

/-- Claim C4, counterexample: with "engagement score" read as the spec
formula `reactions + length/10`, the Discord selector violates the
tie-break — of two candidates with equal engagement score (a
10-character message with one reaction and an empty message with two
reactions, both scoring 2), it returns the later one, because it
compares reaction totals only. -/
theorem c4_counterexample :
    specEngagementScore ⟨false, "aaaaaaaaaa", [1]⟩ =
      specEngagementScore ⟨false, "", [2]⟩ ∧
    findMostEngagingMessage
        [⟨false, "aaaaaaaaaa", [1]⟩, ⟨false, "", [2]⟩] = some ⟨false, "", [2]⟩ ∧
    (Message.mk false "" [2]) ≠ (Message.mk false "aaaaaaaaaa" [1]) := by
  refine ⟨?_, by decide, by decide⟩
  have h1 : reactionTotal ⟨false, "aaaaaaaaaa", [1]⟩ = 1 := rfl
  have h2 : reactionTotal ⟨false, "", [2]⟩ = 2 := rfl
  have h3 : (Message.mk false "aaaaaaaaaa" [1]).text.length = 10 := rfl
  have h4 : (Message.mk false "" [2]).text.length = 0 := rfl
  rw [specEngagementScore, specEngagementScore, h1, h2, h3, h4]
  norm_num

/-- Claim C4, amended: both selectors update the running maximum only
on a strictly greater score, so any returned message occurs at a
position where every earlier candidate has a strictly smaller score (of
the kind the respective loop computes: reaction total for the Discord
variants, `reactions + length/10` for the Slack variant).  In
particular, of two candidates with equal score the earlier one is
returned, deterministically in input order. -/
theorem c4_tiebreak (msgs : List Message) (m : Message) :
    (findMostEngagingMessage msgs = some m →
      ∃ l1 l2, msgs = l1 ++ m :: l2 ∧ m.isFromBot = false ∧
        (∀ x ∈ l1, x.isFromBot = false → reactionTotal x < reactionTotal m) ∧
        (∀ x ∈ msgs, x.isFromBot = false → reactionTotal x ≤ reactionTotal m)) ∧
    (findEngagingMessage msgs = some m →
      ∃ l1 l2, msgs = l1 ++ m :: l2 ∧
        (∀ x ∈ l1, specEngagementScore x < specEngagementScore m) ∧
        (∀ x ∈ msgs, specEngagementScore x ≤ specEngagementScore m)) := by
  constructor
  · intro h
    have h' : (selectLoopFrom (fun x => !x.isFromBot)
        (fun x => (reactionTotal x : Int)) (none, -1) msgs).1 = some m :=
      (findMostEngaging_some_iff msgs m).mp h
    rcases selectLoopFrom_split _ _ msgs (none, -1) m h' with
      h1 | ⟨l1, l2, hsplit, hpm, -, hlt⟩
    · exact absurd h1 (by simp)
    refine ⟨l1, l2, hsplit, by simpa using hpm, ?_, ?_⟩
    · intro x hx hbx
      have := hlt x hx (by simp [hbx])
      exact_mod_cast this
    · intro x hx hbx
      have hle := (selectLoopFrom_snd_le (fun x => !x.isFromBot)
        (fun x => (reactionTotal x : Int)) msgs (none, -1)).2 x hx (by simp [hbx])
      have heq := selectLoopFrom_snd_eq (fun x => !x.isFromBot)
        (fun x => (reactionTotal x : Int)) msgs (none, -1)
        (fun x hx => absurd hx (by simp)) m h'
      rw [heq] at hle
      have hle' : (reactionTotal x : Int) ≤ (reactionTotal m : Int) := by simpa using hle
      exact_mod_cast hle'
  · intro h
    have h' : (selectLoopFrom (fun _ => true) slackScoreTenths (none, 0) msgs).1 = some m := h
    rcases selectLoopFrom_split _ slackScoreTenths msgs (none, 0) m h' with
      h1 | ⟨l1, l2, hsplit, -, -, hlt⟩
    · exact absurd h1 (by simp)
    refine ⟨l1, l2, hsplit, ?_, ?_⟩
    · intro x hx
      exact (slackScoreTenths_lt_iff x m).mp (hlt x hx rfl)
    · intro x hx
      have hle := (selectLoopFrom_snd_le (fun _ => true) slackScoreTenths msgs (none, 0)).2 x hx rfl
      have heq := selectLoopFrom_snd_eq (fun _ => true) slackScoreTenths msgs (none, 0)
        (fun x hx => absurd hx (by simp)) m h'
      rw [heq] at hle
      exact (slackScoreTenths_le_iff x m).mp hle

/-- Claim C4, witness: both parts applied to a concrete two-message
list whose messages have equal scores; the selector returns the
first. -/
theorem c4_witness :
    (∃ l1 l2, [(⟨false, "a", [1]⟩ : Message), ⟨false, "b", [1]⟩] =
        l1 ++ (⟨false, "a", [1]⟩ : Message) :: l2 ∧
      (Message.mk false ("a") [1]).isFromBot = false ∧
      (∀ x ∈ l1, x.isFromBot = false → reactionTotal x < reactionTotal ⟨false, "a", [1]⟩) ∧
      (∀ x ∈ [(⟨false, "a", [1]⟩ : Message), ⟨false, "b", [1]⟩],
        x.isFromBot = false → reactionTotal x ≤ reactionTotal ⟨false, "a", [1]⟩)) ∧
    (∃ l1 l2, [(⟨false, "a", [1]⟩ : Message), ⟨false, "b", [1]⟩] =
        l1 ++ (⟨false, "a", [1]⟩ : Message) :: l2 ∧
      (∀ x ∈ l1, specEngagementScore x < specEngagementScore ⟨false, "a", [1]⟩) ∧
      (∀ x ∈ [(⟨false, "a", [1]⟩ : Message), ⟨false, "b", [1]⟩],
        specEngagementScore x ≤ specEngagementScore ⟨false, "a", [1]⟩)) :=
  ⟨(c4_tiebreak [⟨false, "a", [1]⟩, ⟨false, "b", [1]⟩] ⟨false, "a", [1]⟩).1 (by decide),
   (c4_tiebreak [⟨false, "a", [1]⟩, ⟨false, "b", [1]⟩] ⟨false, "a", [1]⟩).2 (by decide)⟩

/-- Claim C10, confirmed: because the Discord running maximum starts at
-1, any non-bot message (score ≥ 0) makes the loop return a message, so
the fallback branch is only reached when every message is bot-authored,
and then its `find` of a non-bot message necessarily returns null. -/
theorem c10_fallback_unreachable (msgs : List Message) :
    ((∃ x ∈ msgs, x.isFromBot = false) →
      (discordLoop msgs).1.isSome = true ∧
      findMostEngagingMessage msgs = (discordLoop msgs).1) ∧
    ((discordLoop msgs).1 = none →
      msgs.find? (fun x => !x.isFromBot) = none) := by
  constructor
  · intro h
    have hs := discordLoop_isSome msgs h
    refine ⟨hs, ?_⟩
    have hc : ¬((discordLoop msgs).1 = none ∧ 0 < msgs.length) := by
      rintro ⟨hn, -⟩
      rw [hn] at hs
      exact absurd hs (by simp)
    rw [findMostEngagingMessage, if_neg hc]
  · intro h
    exact List.find?_eq_none.mpr fun x hx => by
      simp [discordLoop_none_allBot msgs h x hx]

/-- Claim C10, witness: both parts at concrete singleton lists — a
non-bot message makes the loop itself return it, and on an all-bot list
the fallback search returns nothing. -/
theorem c10_witness :
    ((discordLoop [(⟨false, "", []⟩ : Message)]).1.isSome = true ∧
      findMostEngagingMessage [(⟨false, "", []⟩ : Message)] =
        (discordLoop [(⟨false, "", []⟩ : Message)]).1) ∧
    List.find? (fun x => !x.isFromBot) [(⟨true, "", []⟩ : Message)] = none :=
  ⟨(c10_fallback_unreachable [⟨false, "", []⟩]).1 (by decide),
   (c10_fallback_unreachable [⟨true, "", []⟩]).2 (by decide)⟩

/-- Claim C5, counterexample: the Discord cron callback does not skip
when the selector returns nothing — it calls the generation service
with the hard-coded generic prompt and posts the result.  (Here with an
empty fetched history, on which the selector returns NONE.) -/
theorem c5_counterexample :
    findMostEngagingMessage ([] : List Message) = none ∧
    Effect.generate genericFallbackPrompt ∈
      discordAutoCycle (some ("c1")) [] (fun _ => some ("u")) ∧
    Effect.sendFiles ("c1") "😂 Auto Content Time! Here\x27s a generic joke for the server." "u" ∈
      discordAutoCycle (some ("c1")) [] (fun _ => some ("u")) := by
  refine ⟨rfl, ?_, ?_⟩ <;> decide

/-- Claim C5, amended: the Slack cron loop does skip a destination with
a logged no-engaging-message outcome when the selector returns
nothing — it performs no generation call and no post for that channel;
the Discord cron callback instead falls back to generating (and on
success posting) a meme from a generic hard-coded prompt. -/
theorem c5_amended (ch : String) (msgs : List Message) (gen : String → Option String)
    (h : findEngagingMessage msgs = none) :
    slackCronChannel ch msgs gen = [Effect.fetch ch, Effect.log slackNoEngagingLog] ∧
    (∀ pr, Effect.generate pr ∉ slackCronChannel ch msgs gen) ∧
    (∀ c t u, Effect.sendFiles c t u ∉ slackCronChannel ch msgs gen) := by
  have he : slackCronChannel ch msgs gen = [Effect.fetch ch, Effect.log slackNoEngagingLog] := by
    simp [slackCronChannel, h]
  exact ⟨he, fun pr => by simp [he], fun c t u => by simp [he]⟩

/-- Claim C5, witness: the amended theorem at a concrete channel with
an empty history. -/
theorem c5_witness :
    slackCronChannel ("c") [] (fun _ => none) =
      [Effect.fetch ("c"), Effect.log slackNoEngagingLog] ∧
    (∀ pr, Effect.generate pr ∉ slackCronChannel ("c") [] (fun _ => none)) ∧
    (∀ c t u, Effect.sendFiles c t u ∉ slackCronChannel ("c") [] (fun _ => none)) :=
  c5_amended ("c") [] (fun _ => none) rfl

/-- The value of an enrollment map at the enrolled owner. -/
theorem enroll_apply (m : String → List String) (t c : String) :
    enroll m t c t = if c ∈ m t then m t else m t ++ [c] := by
  simp [enroll]

/-- Enrolling makes the channel present. -/
theorem enroll_mem_self (m : String → List String) (t c : String) :
    c ∈ enroll m t c t := by
  rw [enroll_apply]
  by_cases h : c ∈ m t
  · rwa [if_pos h]
  · rw [if_neg h]
    exact List.mem_append_right _ (List.mem_singleton_self c)

/-- Enrolling preserves duplicate-freedom of the list of the owner. -/
theorem enroll_nodup (m : String → List String) (t c : String)
    (h : (m t).Nodup) : (enroll m t c t).Nodup := by
  rw [enroll_apply]
  by_cases hc : c ∈ m t
  · rwa [if_pos hc]
  · rw [if_neg hc]
    simp [List.nodup_append, h, hc]

/-- Re-enrolling an already-present channel changes nothing at the
owner. -/
theorem enroll_stable (m : String → List String) (t c : String)
    (h : c ∈ m t) : enroll m t c t = m t := by
  rw [enroll_apply, if_pos h]

/-- Claim C6, confirmed: enrollment is idempotent — starting from a
duplicate-free list for the owner, any positive number of enrollments
of the same (ownerId, channelId) pair leaves the list of the owner
duplicate-free with exactly one entry for that channelId. -/
theorem c6_enroll_idempotent (m : String → List String) (t c : String) (n : Nat)
    (h : (m t).Nodup) :
    (Nat.iterate (fun mm => enroll mm t c) (n + 1) m t).Nodup ∧
    List.count c (Nat.iterate (fun mm => enroll mm t c) (n + 1) m t) = 1 := by
  induction n with
  | zero =>
    have hnd : (enroll m t c t).Nodup := enroll_nodup m t c h
    exact ⟨hnd, List.count_eq_one_of_mem hnd (enroll_mem_self m t c)⟩
  | succ k ih =>
    have hstep : Nat.iterate (fun mm => enroll mm t c) (k + 1 + 1) m =
        enroll (Nat.iterate (fun mm => enroll mm t c) (k + 1) m) t c :=
      Function.iterate_succ_apply' _ _ _
    rcases ih with ⟨ihnd, ihcount⟩
    have hmem : c ∈ Nat.iterate (fun mm => enroll mm t c) (k + 1) m t := by
      by_contra hc
      rw [List.count_eq_zero_of_not_mem hc] at ihcount
      exact absurd ihcount (by norm_num)
    rw [hstep, enroll_stable _ t c hmem]
    exact ⟨ihnd, ihcount⟩

/-- Claim C6, witness: two enrollments of ("T", "C") into the empty
registry leave exactly one entry. -/
theorem c6_witness :
    (Nat.iterate (fun mm => enroll mm ("T") "C") 2 (fun _ => ([] : List String)) "T").Nodup ∧
    List.count ("C")
      (Nat.iterate (fun mm => enroll mm ("T") "C") 2 (fun _ => ([] : List String)) "T") = 1 :=
  c6_enroll_idempotent (fun _ => []) "T" "C" 1 (by decide)

/-- The processed-destination projection of the inner channel loop does
not depend on the body outcomes. -/
theorem runChannelLoop_fst (body : String → String → Except String Unit)
    (owner : String) (chs : List String) :
    (runChannelLoop body owner chs).map Prod.fst = chs.map (fun ch => (owner, ch)) := by
  induction chs with
  | nil => rfl
  | cons c rest ih =>
    simp only [runChannelLoop]
    cases body owner c <;> simp [ih]

/-- Every channel of the inner loop produces an entry, whatever the
bodies do. -/
theorem runChannelLoop_mem (body : String → String → Except String Unit)
    (owner : String) (chs : List String) (ch : String) (h : ch ∈ chs) :
    ∃ o, ((owner, ch), o) ∈ runChannelLoop body owner chs := by
  induction chs with
  | nil => exact absurd h (List.not_mem_nil ch)
  | cons c rest ih =>
    rcases List.mem_cons.mp h with h1 | h1
    · subst h1
      cases hb : body owner ch with
      | error e => exact ⟨DestOutcome.errorLogged e, by simp [runChannelLoop, hb]⟩
      | ok u => exact ⟨DestOutcome.done, by simp [runChannelLoop, hb]⟩
    · rcases ih h1 with ⟨o, ho⟩
      refine ⟨o, ?_⟩
      simp only [runChannelLoop]
      cases body owner c <;> exact List.mem_cons_of_mem _ ho

/-- Every enrolled (owner, channel) pair of the cycle produces an
entry, whatever the bodies do. -/
theorem runAutoCycle_mem (body : String → String → Except String Unit)
    (cm : List (String × List String)) (owner ch : String) (chs : List String)
    (h1 : (owner, chs) ∈ cm) (h2 : ch ∈ chs) :
    ∃ o, ((owner, ch), o) ∈ runAutoCycle body cm := by
  induction cm with
  | nil => exact absurd h1 (List.not_mem_nil _)
  | cons p rest ih =>
    obtain ⟨ow, cs⟩ := p
    rcases List.mem_cons.mp h1 with hh | hh
    · injection hh with he1 he2
      subst he1
      subst he2
      rcases runChannelLoop_mem body owner chs ch h2 with ⟨o, ho⟩
      refine ⟨o, ?_⟩
      simp only [runAutoCycle]
      exact List.mem_append_left _ ho
    · rcases ih hh with ⟨o, ho⟩
      exact ⟨o, by simp only [runAutoCycle]; exact List.mem_append_right _ ho⟩

/-- The sequence of destinations a cycle processes is the same as in a
failure-free run. -/
theorem runAutoCycle_fst_indep (body₁ body₂ : String → String → Except String Unit)
    (cm : List (String × List String)) :
    (runAutoCycle body₁ cm).map Prod.fst = (runAutoCycle body₂ cm).map Prod.fst := by
  induction cm with
  | nil => rfl
  | cons p rest ih =>
    obtain ⟨ow, cs⟩ := p
    simp only [runAutoCycle, List.map_append, runChannelLoop_fst, ih]

/-- Claim C7, confirmed: the per-destination try/catch of the scheduled
cycles isolates failures — every enrolled (owner, channel) pair gets an
outcome entry whatever the per-destination bodies throw, and the
sequence of destinations processed equals that of a failure-free run. -/
theorem c7_error_boundary (body : String → String → Except String Unit)
    (cm : List (String × List String)) (owner ch : String) (chs : List String)
    (h1 : (owner, chs) ∈ cm) (h2 : ch ∈ chs) :
    (∃ o, ((owner, ch), o) ∈ runAutoCycle body cm) ∧
    (runAutoCycle body cm).map Prod.fst =
      (runAutoCycle (fun _ _ => Except.ok ()) cm).map Prod.fst :=
  ⟨runAutoCycle_mem body cm owner ch chs h1 h2, runAutoCycle_fst_indep body _ cm⟩

/-- Claim C7, witness: a body that always throws still lets the cycle
process both channels of the enrolled team. -/
theorem c7_witness :
    (∃ o, (("T", "a"), o) ∈
      runAutoCycle (fun _ _ => Except.error ("boom")) [("T", ["a", "b"])]) ∧
    (runAutoCycle (fun _ _ => Except.error ("boom")) [("T", ["a", "b"])]).map Prod.fst =
      (runAutoCycle (fun _ _ => Except.ok ()) [("T", ["a", "b"])]).map Prod.fst :=
  c7_error_boundary (fun _ _ => Except.error ("boom")) [("T", ["a", "b"])]
    "T" "a" ["a", "b"] (by decide) (by decide)

/-- Claim C8, confirmed: when the prompt reduces to the empty string
after stripping the mention token (and, for the Discord handler, the
`create meme` prefix), both mention handlers reply with their
user-visible rejection and perform no generation call. -/
theorem c8_empty_prompt (text user channel cleanContent : String)
    (g1 g2 : String → Option String)
    (h1 : slackExtractPrompt text = "")
    (h2 : strStarts (strToLower (discordExtractContent cleanContent)) botCommandText = true)
    (h3 : discordExtractPrompt cleanContent = "") :
    slackMentionHandler text user channel g1 = [Effect.say slackEmptyPromptReply] ∧
    (∀ pr, Effect.generate pr ∉ slackMentionHandler text user channel g1) ∧
    discordMentionHandler cleanContent g2 = [Effect.reply discordEmptyPromptReply] ∧
    (∀ pr, Effect.generate pr ∉ discordMentionHandler cleanContent g2) := by
  have e1 : slackMentionHandler text user channel g1 = [Effect.say slackEmptyPromptReply] := by
    simp [slackMentionHandler, h1]
  have e2 : discordMentionHandler cleanContent g2 = [Effect.reply discordEmptyPromptReply] := by
    simp [discordMentionHandler, h2, h3]
  exact ⟨e1, fun pr => by simp [e1], e2, fun pr => by simp [e2]⟩

/-- Claim C8, witness: concrete rejected inputs — a Slack mention that
is only a mention token, and a Discord message that is only the mention
plus the bare command. -/
theorem c8_witness :
    slackMentionHandler ("<@U123> ") "U1" "C1" (fun _ => none) =
      [Effect.say slackEmptyPromptReply] ∧
    (∀ pr, Effect.generate pr ∉ slackMentionHandler ("<@U123> ") "U1" "C1" (fun _ => none)) ∧
    discordMentionHandler ("@Bot create meme") (fun _ => none) =
      [Effect.reply discordEmptyPromptReply] ∧
    (∀ pr, Effect.generate pr ∉ discordMentionHandler ("@Bot create meme") (fun _ => none)) :=
  c8_empty_prompt ("<@U123> ") "U1" "C1" "@Bot create meme" (fun _ => none) (fun _ => none)
    (by decide) (by decide) (by decide)

/-- Bound, result and sleep accounting of the polling loop when no poll
ever reports a complete job with a download. -/
theorem pollLoop_spec (get : Nat → PollResponse)
    (h : ∀ i, (get i).status = "complete" → (get i).downloads = []) :
    ∀ k s a, maxAttempts - a ≤ k → a ≤ maxAttempts →
      (pollLoop get s a).1 = none ∧
      a ≤ (pollLoop get s a).2.1 ∧
      (pollLoop get s a).2.1 ≤ maxAttempts ∧
      (pollLoop get s a).2.2 = pollIntervalMs * ((pollLoop get s a).2.1 - a) := by
  intro k
  induction k with
  | zero =>
    intro s a hk ha
    have hguard : ¬(s ≠ "complete" ∧ s ≠ "error" ∧ a < maxAttempts) := by
      rintro ⟨-, -, hlt⟩
      omega
    rw [pollLoop, if_neg hguard]
    exact ⟨rfl, le_refl a, ha, by simp⟩
  | succ k ih =>
    intro s a hk ha
    by_cases hguard : s ≠ "complete" ∧ s ≠ "error" ∧ a < maxAttempts
    · rw [pollLoop, if_pos hguard]
      by_cases hcur : (get (a + 1)).status = "complete" ∧ (get (a + 1)).downloads ≠ []
      · exact absurd (h (a + 1) hcur.1) hcur.2
      · have hrec := ih (get (a + 1)).status (a + 1) (by omega) (by omega)
        simp only [if_neg hcur]
        refine ⟨hrec.1, by omega, hrec.2.2.1, ?_⟩
        rcases hrec with ⟨-, hge, -, hsleep⟩
        rw [hsleep]
        have : a + 1 ≤ (pollLoop get (get (a + 1)).status (a + 1)).2.1 := hge
        simp only [pollIntervalMs]
        omega
    · rw [pollLoop, if_neg hguard]
      exact ⟨rfl, le_refl a, ha, by simp⟩

/-- Claim C9, confirmed: the part_002 polling loop performs at most 20
polls with a fixed 3000 ms delay between them and yields null when no
poll reaches a terminal complete-with-download state. -/
theorem c9_poll_bounded (get : Nat → PollResponse) (s : String)
    (h : ∀ i, (get i).status = "complete" → (get i).downloads = []) :
    (generateMemePolling s get).1 = none ∧
    (generateMemePolling s get).2.1 ≤ maxAttempts ∧
    (generateMemePolling s get).2.2 = pollIntervalMs * (generateMemePolling s get).2.1 ∧
    maxAttempts = 20 ∧ pollIntervalMs = 3000 := by
  have hs := pollLoop_spec get h maxAttempts s 0 (by omega) (by omega)
  exact ⟨hs.1, hs.2.2.1, by simpa using hs.2.2.2, rfl, rfl⟩

/-- Claim C9, witness: a job that never completes is polled at most the
bounded number of times and yields null. -/
theorem c9_witness :
    (generateMemePolling ("queued") (fun _ => ⟨"pending", []⟩)).1 = none ∧
    (generateMemePolling ("queued") (fun _ => ⟨"pending", []⟩)).2.1 ≤ maxAttempts ∧
    (generateMemePolling ("queued") (fun _ => ⟨"pending", []⟩)).2.2 =
      pollIntervalMs * (generateMemePolling ("queued") (fun _ => ⟨"pending", []⟩)).2.1 ∧
    maxAttempts = 20 ∧ pollIntervalMs = 3000 :=
  c9_poll_bounded (fun _ => ⟨"pending", []⟩) "queued" (fun i hc => by simp at hc)

